import Mathlib

/-!
Verification of the CSV ingestion and KPI/aggregation engine of the
lead-magnet studio (source: src/components/HubspotInsights.tsx).

The JavaScript/TypeScript source is shallowly embedded: JS strings become
Lean `String`s, JS numbers become exact rationals `ℚ` — an idealization
that models the source's arithmetic at the magnitudes of real exports but
not IEEE-754 double rounding or overflow (a float division or sum of
finite doubles can still overflow to Infinity, and Infinity/Infinity is
NaN; properties that hinge on that behavior are out of this model's
reach) — JS objects built by
`row[h] = v` assignments become insertion-ordered association lists with
overwrite-in-place semantics, and `Array.prototype.sort` (stable since
ES2019) becomes a stable structural sort (`List.insertionSort`) — the
output of a stable sort is determined by the comparator alone, so this is
observationally the sort the source performs.
-/

namespace LeadMagnet

/-- Model of the JS `String.prototype.trim`: drop whitespace characters
from both ends (the inputs in scope use ASCII whitespace). -/
def jsTrim (s : String) : String :=
  String.mk (((s.toList.dropWhile Char.isWhitespace).reverse.dropWhile
    Char.isWhitespace).reverse)

/-- `normalizeHeader` from the source:
`h.toLowerCase().replace(/[^a-z0-9]+/g, '')` — lower-case, then keep only
characters in `[a-z0-9]`. -/
def normalizeHeader (h : String) : String :=
  String.mk ((h.toList.map Char.toLower).filter fun c =>
    decide ('a' ≤ c ∧ c ≤ 'z') || decide ('0' ≤ c ∧ c ≤ '9'))

/-- Contiguous-sublist test on character lists (model of JS
`String.prototype.includes`). -/
def listHasInfix (sub : List Char) : List Char → Bool
  | [] => sub.isEmpty
  | c :: rest => sub.isPrefixOf (c :: rest) || listHasInfix sub rest

/-- `s.includes(sub)` for strings. -/
def strIncludes (s sub : String) : Bool :=
  listHasInfix sub.toList s.toList

/-- Numeric value of a list of decimal digit characters. -/
def digitsVal (ds : List Char) : Nat :=
  ds.foldl (fun a c => a * 10 + (c.toNat - 48)) 0

/-- Exponent part of a JS decimal literal: the characters after `e`/`E`
(optional sign then at least one digit, consuming the whole remainder). -/
def parseExpPart (cs : List Char) : Option Int :=
  let (sgn, rest) : Int × List Char :=
    match cs with
    | '+' :: r => (1, r)
    | '-' :: r => (-1, r)
    | r => (1, r)
  if rest ≠ [] ∧ rest.all Char.isDigit then some (sgn * digitsVal rest) else none

/-- Attach an optional exponent suffix to a parsed mantissa; any other
trailing characters make the literal `NaN` (`none`). -/
def applyExpPart (sgn mantissa : ℚ) : List Char → Option ℚ
  | [] => some (sgn * mantissa)
  | 'e' :: r => (parseExpPart r).map fun e => sgn * mantissa * (10 : ℚ) ^ e
  | 'E' :: r => (parseExpPart r).map fun e => sgn * mantissa * (10 : ℚ) ^ e
  | _ => none

/-- Model of the JS builtin `Number()` applied to an already-trimmed,
non-empty string, composed with the `Number.isFinite` test of the source:
`some q` is a finite result, `none` is `NaN` or `±Infinity`.  The model
covers the decimal-literal fragment of the grammar (sign, digits, decimal
point, exponent, `Infinity`); the non-decimal `0x`/`0o`/`0b` integer
literals are outside the inputs this engine cleans. -/
def jsNumberFinite (s : String) : Option ℚ :=
  let cs := s.toList
  let (sgn, body) : ℚ × List Char :=
    match cs with
    | '+' :: r => (1, r)
    | '-' :: r => (-1, r)
    | r => (1, r)
  if body = "Infinity".toList then none
  else
    let intPart := body.takeWhile Char.isDigit
    let rest1 := body.dropWhile Char.isDigit
    match rest1 with
    | '.' :: r2 =>
      let fracPart := r2.takeWhile Char.isDigit
      let rest2 := r2.dropWhile Char.isDigit
      if intPart = [] ∧ fracPart = [] then none
      else
        applyExpPart sgn
          ((digitsVal (intPart ++ fracPart) : ℚ) / (10 : ℚ) ^ fracPart.length) rest2
    | _ =>
      if intPart = [] then none
      else applyExpPart sgn (digitsVal intPart : ℚ) rest1

/-- The character filter of the source's first `replace(/[$,%]/g, '')`. -/
def notMoneyChar (c : Char) : Bool :=
  !(c == '$' || c == ',' || c == '%')

/-- The cleaned string of `parseNumber`:
`value.replace(/[$,%]/g, '').replace(/,/g, '').trim()`. -/
def cleanNumeric (value : String) : String :=
  jsTrim (String.mk ((value.toList.filter notMoneyChar).filter fun c => !(c == ',')))

/-- `parseNumber` from the source. -/
def parseNumber (value : String) : Option ℚ :=
  if value = "" then none
  else
    let cleaned := cleanNumeric value
    if cleaned = "" then none
    else jsNumberFinite cleaned

/-- `pushRow` of `parseCsv`: a row made of a single blank field is dropped
when some row has already been emitted (trailing blank-line suppression). -/
def csvPushRow (rows : List (List String)) (row : List String) : List (List String) :=
  if row.length = 1 ∧ jsTrim (row.headD "") = "" ∧ 0 < rows.length then rows
  else rows ++ [row]

/-- The character scan of `parseCsv`: arguments are the remaining input,
the `inQuotes` flag, the `currentField` accumulator, the `currentRow`
accumulator and the emitted `rows`. -/
def scanCsv : List Char → Bool → String → List String → List (List String) → List (List String)
  | [], _, field, row, rows => csvPushRow rows (row ++ [field])
  | '"' :: '"' :: rest, true, field, row, rows =>
      scanCsv rest true (field.push '"') row rows
  | '"' :: rest, inQ, field, row, rows => scanCsv rest (!inQ) field row rows
  | ',' :: rest, false, field, row, rows =>
      scanCsv rest false "" (row ++ [field]) rows
  | '\r' :: '\n' :: rest, false, field, row, rows =>
      scanCsv rest false "" [] (csvPushRow rows (row ++ [field]))
  | c :: rest, inQ, field, row, rows =>
      if inQ = false ∧ (c = '\n' ∨ c = '\r') then
        scanCsv rest false "" [] (csvPushRow rows (row ++ [field]))
      else scanCsv rest inQ (field.push c) row rows

/-- A parsed row: a JS object keyed by header names, kept as an
insertion-ordered association list. -/
abbrev CsvRow := List (String × String)

/-- JS object assignment `row[k] = v`: overwrite in place when the key
exists, append otherwise. -/
def objInsert : CsvRow → String → String → CsvRow
  | [], k, v => [(k, v)]
  | (k', v') :: rest, k, v =>
      if k' = k then (k, v) :: rest else (k', v') :: objInsert rest k v

/-- `headers.forEach((h, idx) => { row[h] = (r[idx] ?? '').trim(); })`. -/
def mkRow (headers : List String) (cells : List String) : CsvRow :=
  headers.enum.foldl (fun row hi => objInsert row hi.2 (jsTrim (cells.getD hi.1 ""))) []

/-- Output of `parseCsv`. -/
structure RawTable where
  headers : List String
  rows : List CsvRow
deriving Repr, DecidableEq

/-- `parseCsv` from the source: scan, take the first raw row (trimmed) as
headers, keep the later raw rows having some non-blank cell, and map each
positionally against the headers. -/
def parseCsv (text : String) : RawTable :=
  let rawRows := scanCsv text.toList false "" [] []
  let headers := (rawRows.headD []).map jsTrim
  let dataRows := rawRows.tail.filter fun r => r.any fun v => jsTrim v != ""
  { headers := headers, rows := dataRows.map (mkRow headers) }

/-- `pickColumn` from the source: walk candidates in priority order; for
each, try a normalized exact match over the headers, then a normalized
substring match; return the first hit's raw header. -/
def pickColumn (headers candidates : List String) : Option String :=
  let normalized := headers.map fun h => (h, normalizeHeader h)
  candidates.findSome? fun c =>
    let target := normalizeHeader c
    match normalized.find? (fun p => p.2 == target) with
    | some p => some p.1
    | none =>
      match normalized.find? (fun p => strIncludes p.2 target) with
      | some p => some p.1
      | none => none

/-- One row annotated with its resolved label and parsed metrics. -/
structure EnrichedRow where
  label : String
  sessions : ℚ
  conversions : ℚ
  rate : ℚ
deriving Repr, DecidableEq

def labelCandidates : List String :=
  ["page", "page title", "title", "url", "page url", "campaign", "source", "name"]

def sessionsCandidates : List String :=
  ["sessions", "visits", "pageviews", "views"]

def conversionsCandidates : List String :=
  ["submissions", "conversions", "contacts", "new contacts", "form submissions"]

/-- JS `a || b` on nullable strings: the empty string is falsy. -/
def jsOrStr (a b : Option String) : Option String :=
  match a with
  | some s => if s = "" then b else some s
  | none => b

/-- `pickColumn(headers, labelCandidates) || headers[0] || null`. -/
def labelColOf (headers : List String) : Option String :=
  jsOrStr (pickColumn headers labelCandidates) (jsOrStr headers.head? none)

/-- JS property read `r[h]` with the missing case collapsed to the empty
string (both `undefined` and `''` are falsy and parse to no number). -/
def lookupCell (row : CsvRow) (h : String) : String :=
  (row.lookup h).getD ""

/-- The row-enrichment step of `computeDashboard`. -/
def enrichRow (labelCol sessionsCol conversionsCol : Option String) (r : CsvRow) :
    EnrichedRow :=
  let label :=
    match labelCol with
    | some c => let v := lookupCell r c; if v = "" then "(unknown)" else v
    | none => "(unknown)"
  let sessions : ℚ :=
    match sessionsCol with
    | some c => (parseNumber (lookupCell r c)).getD 0
    | none => 0
  let conversions : ℚ :=
    match conversionsCol with
    | some c => (parseNumber (lookupCell r c)).getD 0
    | none => 0
  { label := label, sessions := sessions, conversions := conversions,
    rate := if 0 < sessions then conversions / sessions else 0 }

/-- All rows enriched with the columns resolved once per table. -/
def enrichRows (headers : List String) (rows : List CsvRow) : List EnrichedRow :=
  rows.map (enrichRow (labelColOf headers) (pickColumn headers sessionsCandidates)
    (pickColumn headers conversionsCandidates))

/-- The dashboard state set by `computeDashboard`. -/
structure DashboardSummary where
  rowCount : Nat
  totalSessions : ℚ
  totalConversions : ℚ
  conversionRate : ℚ
  topBySessions : List EnrichedRow
  topByRate : List EnrichedRow
deriving Repr, DecidableEq

/-- The JS comparator `(a, b) => b.sessions - a.sessions` as a stable-sort
order: `a` may precede `b` iff `b.sessions ≤ a.sessions`.  JS
`Array.prototype.sort` is stable, and a stable sort's output is determined
by the order, so the structural stable `List.insertionSort` models it. -/
def sessionsDesc (a b : EnrichedRow) : Prop :=
  b.sessions ≤ a.sessions

/-- The JS comparator `(a, b) => b.rate - a.rate` as a stable-sort order. -/
def rateDesc (a b : EnrichedRow) : Prop :=
  b.rate ≤ a.rate

instance : DecidableRel sessionsDesc :=
  fun a b => inferInstanceAs (Decidable (b.sessions ≤ a.sessions))

instance : DecidableRel rateDesc :=
  fun a b => inferInstanceAs (Decidable (b.rate ≤ a.rate))

instance : IsTotal EnrichedRow sessionsDesc :=
  ⟨fun a b => le_total b.sessions a.sessions⟩

instance : IsTrans EnrichedRow sessionsDesc :=
  ⟨fun _ _ _ hab hbc => le_trans hbc hab⟩

instance : IsTotal EnrichedRow rateDesc :=
  ⟨fun a b => le_total b.rate a.rate⟩

instance : IsTrans EnrichedRow rateDesc :=
  ⟨fun _ _ _ hab hbc => le_trans hbc hab⟩

/-- `computeDashboard` from the source (the pure computation behind the
`setKpis`/`setTopBySessions`/`setTopByRate` state updates). -/
def computeDashboard (headers : List String) (rows : List CsvRow) : DashboardSummary :=
  let enriched := enrichRows headers rows
  let totalSessions := enriched.foldl (fun sum r => sum + r.sessions) 0
  let totalConversions := enriched.foldl (fun sum r => sum + r.conversions) 0
  { rowCount := rows.length
    totalSessions := totalSessions
    totalConversions := totalConversions
    conversionRate := if 0 < totalSessions then totalConversions / totalSessions else 0
    topBySessions := (List.insertionSort sessionsDesc enriched).take 6
    topByRate := (List.insertionSort rateDesc
      (enriched.filter fun r => decide ((25 : ℚ) ≤ r.sessions))).take 6 }

/-- Lower-case hexadecimal digit. -/
def hexDigit (n : Nat) : Char :=
  if n < 10 then Char.ofNat (48 + n) else Char.ofNat (87 + n)

/-- One character of `JSON.stringify` string escaping. -/
def jsonEscapeChar (c : Char) : String :=
  if c = '"' then "\\\""
  else if c = '\\' then "\\\\"
  else if c = '\x08' then "\\b"
  else if c = '\x09' then "\\t"
  else if c = '\x0a' then "\\n"
  else if c = '\x0c' then "\\f"
  else if c = '\x0d' then "\\r"
  else if c.toNat < 32 then
    "\\u00" ++ String.mk [hexDigit (c.toNat / 16), hexDigit (c.toNat % 16)]
  else String.singleton c

/-- `JSON.stringify` applied to a string value. -/
def jsonStringify (s : String) : String :=
  "\"" ++ String.join (s.toList.map jsonEscapeChar) ++ "\""

/-- JS `Array.prototype.join(sep)`. -/
def joinSep (sep : String) : List String → String
  | [] => ""
  | [x] => x
  | x :: y :: xs => x ++ sep ++ joinSep sep (y :: xs)

/-- JS `s.substring(0, n)`. -/
def strTake (s : String) (n : Nat) : String :=
  String.mk (s.toList.take n)

/-- The prompt sample built by `generateAI`: the raw header line, then up
to 200 data rows with each cell `JSON.stringify`-escaped and comma-joined,
the whole truncated to 50,000 characters. -/
def buildAiSample (headers : List String) (rows : List CsvRow) : String :=
  let headerLine := joinSep "," headers
  let sampleRows := joinSep "\n" ((rows.take 200).map fun r =>
    joinSep "," (headers.map fun h => jsonStringify (lookupCell r h)))
  strTake (headerLine ++ "\n" ++ sampleRows) 50000

/-- The text before the first line feed of a string. -/
def firstLine (s : String) : String :=
  String.mk (s.toList.takeWhile fun c => c ≠ '\n')

/-- Number of occurrences of a character in a string. -/
def charCount (s : String) (c : Char) : Nat :=
  s.toList.count c

/-- JS object key insertion order: the headers with later duplicates
collapsed onto their first occurrence (this is what the key list of a row
object looks like after `row[h] = v` runs over all headers). -/
def jsKeys (headers : List String) : List String :=
  headers.foldl (fun ks h => if h ∈ ks then ks else ks ++ [h]) []

set_option maxRecDepth 8000

/-- C1: on the three-row Page/Sessions/Submissions scenario, parsing then
aggregating yields rowCount 3, totals 1520 and 40, overall rate 40/1520,
top-by-volume ordered /about, /pricing, /contact, and top-by-rate exactly
[/pricing, /about] (the /contact row is excluded by the 25-traffic floor
despite its rate 1/2). -/
theorem c1_concrete_scenario :
    computeDashboard
      (parseCsv "Page,Sessions,Submissions\n/pricing,500,25\n/about,1000,5\n/contact,20,10").headers
      (parseCsv "Page,Sessions,Submissions\n/pricing,500,25\n/about,1000,5\n/contact,20,10").rows =
      { rowCount := 3, totalSessions := 1520, totalConversions := 40,
        conversionRate := 40 / 1520,
        topBySessions := [⟨"/about", 1000, 5, 1/200⟩, ⟨"/pricing", 500, 25, 1/20⟩,
          ⟨"/contact", 20, 10, 1/2⟩],
        topByRate := [⟨"/pricing", 500, 25, 1/20⟩, ⟨"/about", 1000, 5, 1/200⟩] } := by
  with_unfolding_all decide

/-- C5: a comma inside a double-quoted field does not split the field;
parsing the given two-line text yields headers ["a", "b,c", "d"] and one
row mapping those headers to "1", "2,3" and "4". -/
theorem c5_quoted_comma :
    parseCsv "a,\"b,c\",d\n1,\"2,3\",4" =
      { headers := ["a", "b,c", "d"],
        rows := [[("a", "1"), ("b,c", "2,3"), ("d", "4")]] } := by
  decide

/-- C2 counterexample: with the duplicate header list ["a", "a"], the row
object has a single key, so its entry count is 1 while the headers
sequence has 2 elements — the claimed invariant fails on duplicates. -/
theorem c2_counterexample :
    (parseCsv "a,a\n1,2").headers.length = 2 ∧
    ∃ row ∈ (parseCsv "a,a\n1,2").rows,
      row.length ≠ (parseCsv "a,a\n1,2").headers.length := by
  decide

/-- C7 counterexample: for the table parsed from ",b\nhello,2" the header
list is non-empty and no label candidate matches, yet the label column
does not fall back to the first header (which is the empty string after
trimming): it resolves to nothing and the row's label is "(unknown)"
even though the position-0 cell holds the non-empty value "hello". -/
theorem c7_counterexample :
    let t := parseCsv ",b\nhello,2"
    t.headers ≠ [] ∧
    pickColumn t.headers labelCandidates = none ∧
    labelColOf t.headers = none ∧
    lookupCell (t.rows.headD []) (t.headers.headD "x") = "hello" ∧
    (enrichRows t.headers t.rows).map EnrichedRow.label = ["(unknown)"] := by
  decide

/-- C10 counterexample: a quoted header may contain a raw newline; for the
table parsed from "\"a\nb\",\"c,d\"\n1,2" one header contains a comma,
but that comma does not appear in the sample's first line (which is just
"a"), refuting the claim as stated for every table.  The second table
shows the intended behavior: the header line is emitted raw while data
cells are quoted, and the naive comma-separated field counts of the two
lines differ (3 commas vs 2). -/
theorem c10_counterexample :
    (∃ h ∈ (parseCsv "\"a\nb\",\"c,d\"\n1,2").headers, ',' ∈ h.toList) ∧
    ',' ∉ (firstLine (buildAiSample (parseCsv "\"a\nb\",\"c,d\"\n1,2").headers
      (parseCsv "\"a\nb\",\"c,d\"\n1,2").rows)).toList ∧
    buildAiSample (parseCsv "a,\"b,c\",d\n1,2,3").headers
      (parseCsv "a,\"b,c\",d\n1,2,3").rows = "a,b,c,d\n\"1\",\"2\",\"3\"" ∧
    charCount "a,b,c,d" ',' = 3 ∧
    charCount "\"1\",\"2\",\"3\"" ',' = 2 := by
  decide

/-- C3: every row ranked by rate has traffic at least 25; the ranking is
sorted by rate descending and truncated to 6; and when no enriched row
reaches 25 sessions the rate ranking is empty. -/
theorem c3_rate_floor (headers : List String) (rows : List CsvRow) :
    (∀ r ∈ (computeDashboard headers rows).topByRate, (25 : ℚ) ≤ r.sessions) ∧
    (computeDashboard headers rows).topByRate.Sorted rateDesc ∧
    (computeDashboard headers rows).topByRate.length ≤ 6 ∧
    ((∀ r ∈ enrichRows headers rows, r.sessions < 25) →
      (computeDashboard headers rows).topByRate = []) := by
  have htop : (computeDashboard headers rows).topByRate =
      (List.insertionSort rateDesc
        ((enrichRows headers rows).filter fun r => decide ((25 : ℚ) ≤ r.sessions))).take 6 :=
    rfl
  refine ⟨?_, ?_, ?_, ?_⟩
  · intro r hr
    rw [htop] at hr
    have hr' := List.take_subset _ _ hr
    have hr'' := (List.mem_insertionSort (r := rateDesc)).mp hr'
    have := (List.mem_filter.mp hr'').2
    exact of_decide_eq_true this
  · rw [htop]
    exact ((List.sorted_insertionSort rateDesc _).sublist (List.take_sublist _ _))
  · rw [htop]
    exact List.length_take_le _ _
  · intro hall
    rw [htop]
    have hfil : ((enrichRows headers rows).filter
        fun r => decide ((25 : ℚ) ≤ r.sessions)) = [] := by
      rw [List.filter_eq_nil_iff]
      intro r hr
      simp only [decide_eq_true_eq]
      exact not_le.mpr (hall r hr)
    rw [hfil]
    rfl

/-- C3 witness: the table with one row of traffic 10 and conversions 9
(rate 9/10) has an empty rate ranking although its volume ranking is not
empty. -/
theorem c3_rate_floor_witness :
    (computeDashboard (parseCsv "Page,Sessions,Submissions\n/x,10,9").headers
      (parseCsv "Page,Sessions,Submissions\n/x,10,9").rows).topByRate = [] ∧
    (computeDashboard (parseCsv "Page,Sessions,Submissions\n/x,10,9").headers
      (parseCsv "Page,Sessions,Submissions\n/x,10,9").rows).topBySessions ≠ [] :=
  ⟨(c3_rate_floor _ _).2.2.2 (by with_unfolding_all decide),
   by with_unfolding_all decide⟩

/-- Dropping while a predicate holds of every element leaves nothing. -/
theorem dropWhile_eq_nil_of_all {p : Char → Bool} :
    ∀ l : List Char, (∀ c ∈ l, p c) → l.dropWhile p = []
  | [], _ => rfl
  | c :: t, h => by
    rw [List.dropWhile_cons_of_pos (h c (List.mem_cons_self c t))]
    exact dropWhile_eq_nil_of_all t fun x hx => h x (List.mem_cons_of_mem c hx)

/-- Trimming a string of nothing but whitespace yields the empty string. -/
theorem jsTrim_of_all_whitespace (s : String)
    (h : ∀ c ∈ s.toList, c.isWhitespace) : jsTrim s = "" := by
  unfold jsTrim
  rw [dropWhile_eq_nil_of_all s.toList h]
  rfl

/-- A whitespace-only value parses to no number. -/
theorem parseNumber_whitespace (s : String)
    (h : ∀ c ∈ s.toList, c.isWhitespace) : parseNumber s = none := by
  by_cases hs : s = ""
  · subst hs; rfl
  · have hclean : cleanNumeric s = "" := by
      apply jsTrim_of_all_whitespace
      intro c hc
      have : c ∈ s.toList := by
        have h1 := List.mem_filter.mp hc
        exact (List.mem_filter.mp h1.1).1
      exact h c this
    simp only [parseNumber, if_neg hs, hclean]
    rfl

/-- A value whose cleaned form is not a finite number parses to nothing. -/
theorem parseNumber_not_finite (s : String)
    (h : jsNumberFinite (cleanNumeric s) = none) : parseNumber s = none := by
  by_cases hs : s = ""
  · subst hs; rfl
  · by_cases hc : cleanNumeric s = ""
    · simp only [parseNumber, if_neg hs, hc]
      rfl
    · simp only [parseNumber, if_neg hs, if_neg hc]
      exact h

/-- C6: parseNumber strips currency/percent/comma decorations
("$1,234.50" gives 1234.5 = 2469/2, "12%" gives 12), and returns nothing
on the empty string, on "n/a", on any whitespace-only input, and whenever
the cleaned string does not convert to a finite number. -/
theorem c6_parse_number (s : String) :
    parseNumber "$1,234.50" = some (2469 / 2) ∧
    parseNumber "12%" = some 12 ∧
    parseNumber "" = none ∧
    parseNumber "n/a" = none ∧
    ((∀ c ∈ s.toList, c.isWhitespace) → parseNumber s = none) ∧
    (jsNumberFinite (cleanNumeric s) = none → parseNumber s = none) :=
  ⟨by with_unfolding_all decide, by with_unfolding_all decide, rfl,
    by with_unfolding_all decide, parseNumber_whitespace s, parseNumber_not_finite s⟩

/-- C6 witness: a whitespace-only input and an input whose cleaned form is
not numeric both parse to nothing. -/
theorem c6_parse_number_witness :
    parseNumber "  " = none ∧ parseNumber "n/a%" = none :=
  ⟨(c6_parse_number "  ").2.2.2.2.1 (by decide),
   (c6_parse_number "n/a%").2.2.2.2.2 (by decide)⟩

/-- parseNumber is blind to commas: deleting every comma first does not
change its result. -/
theorem parseNumber_filter_comma (s : String) :
    parseNumber s =
      parseNumber (String.mk (s.toList.filter fun c => !(c == ','))) := by
  by_cases hs : s = ""
  · subst hs; rfl
  · by_cases hs' : String.mk (s.toList.filter fun c => !(c == ',')) = ""
    · have hnil : s.toList.filter (fun c => !(c == ',')) = [] := by
        have := congrArg String.data hs'
        simpa using this
      have hclean : cleanNumeric s = "" := by
        unfold cleanNumeric
        have hmoney : s.toList.filter notMoneyChar = [] := by
          rw [List.filter_eq_nil_iff]
          intro c hc
          have hcomma : c = ',' := by
            by_contra hne
            have : c ∈ s.toList.filter (fun c => !(c == ',')) :=
              List.mem_filter.mpr ⟨hc, by simp [hne]⟩
            rw [hnil] at this
            exact absurd this (List.not_mem_nil c)
          subst hcomma
          simp [notMoneyChar]
        rw [hmoney]
        rfl
      simp only [parseNumber, if_neg hs, hclean, if_pos hs']
      rfl
    · have hkey : cleanNumeric (String.mk (s.toList.filter fun c => !(c == ','))) =
          cleanNumeric s := by
        unfold cleanNumeric
        have hdata : (String.mk (s.toList.filter fun c => !(c == ','))).toList =
            s.toList.filter fun c => !(c == ',') := rfl
        rw [hdata, List.filter_filter, List.filter_filter, List.filter_filter]
        congr 2
        apply List.filter_congr
        intro a _
        cases h2 : (a == ',') <;> cases h3 : notMoneyChar a <;> simp [h2, h3]
      simp only [parseNumber, if_neg hs, if_neg hs', hkey]

/-- C9: parseNumber deletes every comma character wherever it occurs —
parsing any string gives the same result as parsing the string with all
commas removed — and in particular "1,2" parses to 12, not to an error. -/
theorem c9_comma_stripping :
    (∀ s : String, parseNumber s =
      parseNumber (String.mk (s.toList.filter fun c => !(c == ',')))) ∧
    parseNumber "1,2" = some 12 :=
  ⟨parseNumber_filter_comma, by with_unfolding_all decide⟩

/-- Keys after a JS object assignment: unchanged when the key already
exists, extended at the end otherwise. -/
theorem keys_objInsert (row : CsvRow) (k v : String) :
    (objInsert row k v).map Prod.fst =
      if k ∈ row.map Prod.fst then row.map Prod.fst else row.map Prod.fst ++ [k] := by
  induction row with
  | nil => simp [objInsert]
  | cons p rest ih =>
    obtain ⟨k', v'⟩ := p
    by_cases h : k' = k
    · subst h
      simp [objInsert]
    · simp only [objInsert, if_neg h, List.map_cons]
      rw [ih]
      by_cases hm : k ∈ rest.map Prod.fst
      · rw [if_pos hm, if_pos (List.mem_cons_of_mem _ hm)]
      · have hnot : k ∉ k' :: rest.map Prod.fst := by
          simp only [List.mem_cons]
          rintro (rfl | hk)
          · exact h rfl
          · exact hm hk
        rw [if_neg hm, if_neg hnot]
        simp

/-- The key list of a row built by repeated JS object assignment depends
only on the sequence of assigned keys. -/
theorem keys_foldl_objInsert (ps : List (Nat × String)) (f : Nat × String → String) :
    ∀ init : CsvRow,
      (ps.foldl (fun row hi => objInsert row hi.2 (f hi)) init).map Prod.fst =
        ps.foldl (fun ks hi => if hi.2 ∈ ks then ks else ks ++ [hi.2]) (init.map Prod.fst) := by
  induction ps with
  | nil => intro init; rfl
  | cons p rest ih =>
    intro init
    simp only [List.foldl_cons]
    rw [ih, keys_objInsert]

/-- Folding the key-accumulation step over an enumerated list ignores the
indices. -/
theorem foldl_enumFrom_keys (l : List String) :
    ∀ (n : Nat) (acc : List String),
      (l.enumFrom n).foldl (fun ks hi => if hi.2 ∈ ks then ks else ks ++ [hi.2]) acc =
        l.foldl (fun ks h => if h ∈ ks then ks else ks ++ [h]) acc := by
  induction l with
  | nil => intro n acc; rfl
  | cons a t ih =>
    intro n acc
    simp only [List.enumFrom_cons, List.foldl_cons]
    exact ih (n + 1) _

/-- The keys of a materialized row are exactly the deduplicated headers. -/
theorem keys_mkRow (headers cells : List String) :
    (mkRow headers cells).map Prod.fst = jsKeys headers := by
  unfold mkRow jsKeys
  rw [keys_foldl_objInsert]
  exact foldl_enumFrom_keys headers 0 []

/-- Membership in the key accumulation: an element is collected iff it was
already present or occurs in the input list. -/
theorem mem_keys_foldl (l : List String) :
    ∀ (acc : List String) (x : String),
      (x ∈ l.foldl (fun ks h => if h ∈ ks then ks else ks ++ [h]) acc) ↔
        x ∈ acc ∨ x ∈ l := by
  induction l with
  | nil => intro acc x; simp
  | cons a t ih =>
    intro acc x
    simp only [List.foldl_cons]
    by_cases h : a ∈ acc
    · rw [if_pos h, ih]
      constructor
      · rintro (hx | hx)
        · exact Or.inl hx
        · exact Or.inr (List.mem_cons_of_mem a hx)
      · rintro (hx | hx)
        · exact Or.inl hx
        · rcases List.mem_cons.mp hx with rfl | hx
          · exact Or.inl h
          · exact Or.inr hx
    · rw [if_neg h, ih]
      simp only [List.mem_append, List.mem_singleton, List.mem_cons]
      tauto

/-- The key accumulation never produces duplicates. -/
theorem nodup_keys_foldl (l : List String) :
    ∀ acc : List String, acc.Nodup →
      (l.foldl (fun ks h => if h ∈ ks then ks else ks ++ [h]) acc).Nodup := by
  induction l with
  | nil => intro acc h; exact h
  | cons a t ih =>
    intro acc hacc
    simp only [List.foldl_cons]
    by_cases h : a ∈ acc
    · rw [if_pos h]; exact ih _ hacc
    · rw [if_neg h]
      refine ih _ ?_
      rw [List.nodup_append]
      exact ⟨hacc, List.nodup_singleton a,
        fun x hx hxa => h ((List.mem_singleton.mp hxa) ▸ hx)⟩

/-- On a duplicate-free input the key accumulation is the identity. -/
theorem keys_foldl_of_nodup (l : List String) :
    ∀ acc : List String, (acc ++ l).Nodup →
      l.foldl (fun ks h => if h ∈ ks then ks else ks ++ [h]) acc = acc ++ l := by
  induction l with
  | nil => intro acc _; simp
  | cons a t ih =>
    intro acc h
    have ha : a ∉ acc := by
      rw [List.nodup_append] at h
      exact fun hx => h.2.2 hx (List.mem_cons_self a t)
    simp only [List.foldl_cons, if_neg ha]
    have h' : ((acc ++ [a]) ++ t).Nodup := by
      rw [List.append_assoc, List.singleton_append]
      exact h
    rw [ih (acc ++ [a]) h']
    simp

/-- C2 (amended): every parsed row's key list is the header list with
later duplicates collapsed onto their first occurrence (the later column
silently overwrites the earlier key), so the key set still coincides with
the header set, and the entry count equals the header count exactly when
the headers are duplicate-free. -/
theorem c2_row_key_count (text : String) (row : CsvRow)
    (hrow : row ∈ (parseCsv text).rows) :
    row.map Prod.fst = jsKeys (parseCsv text).headers ∧
    (∀ h : String, h ∈ row.map Prod.fst ↔ h ∈ (parseCsv text).headers) ∧
    ((parseCsv text).headers.Nodup →
      row.length = (parseCsv text).headers.length) := by
  have hmap : (parseCsv text).rows =
      ((scanCsv text.toList false "" [] []).tail.filter
        fun r => r.any fun v => jsTrim v != "").map (mkRow (parseCsv text).headers) := rfl
  rw [hmap] at hrow
  obtain ⟨cells, -, rfl⟩ := List.mem_map.mp hrow
  refine ⟨keys_mkRow _ _, ?_, ?_⟩
  · intro h
    rw [keys_mkRow]
    unfold jsKeys
    rw [mem_keys_foldl]
    simp
  · intro hnd
    have hlen : (mkRow (parseCsv text).headers cells).length =
        ((mkRow (parseCsv text).headers cells).map Prod.fst).length :=
      (List.length_map _ _).symm
    rw [hlen, keys_mkRow]
    unfold jsKeys
    rw [keys_foldl_of_nodup _ [] (by simpa using hnd)]
    simp

/-- C2 witness: on a duplicate-free two-column table the parsed row has
exactly as many entries as there are headers. -/
theorem c2_row_key_count_witness :
    ([("a", "1"), ("b", "2")] : CsvRow) ∈ (parseCsv "a,b\n1,2").rows ∧
    ([("a", "1"), ("b", "2")] : CsvRow).length = (parseCsv "a,b\n1,2").headers.length :=
  ⟨by decide, (c2_row_key_count "a,b\n1,2" _ (by decide)).2.2 (by decide)⟩

/-- C7 (amended): when no label candidate matches, the label column falls
back to the table's first header provided that header is non-empty (an
empty first header leaves the label unresolved); and a row's label is the
sentinel "(unknown)" exactly when the label column is unresolved, the
resolved cell is empty, or the cell literally holds "(unknown)". -/
theorem c7_label_fallback (headers : List String) (rows : List CsvRow) :
    (∀ h0, headers.head? = some h0 → pickColumn headers labelCandidates = none →
      h0 ≠ "" → labelColOf headers = some h0) ∧
    (∀ raw ∈ rows,
      ((enrichRow (labelColOf headers) (pickColumn headers sessionsCandidates)
          (pickColumn headers conversionsCandidates) raw).label = "(unknown)" ↔
        (labelColOf headers = none ∨ ∃ c, labelColOf headers = some c ∧
          (lookupCell raw c = "" ∨ lookupCell raw c = "(unknown)")))) := by
  constructor
  · intro h0 hh hp hne
    unfold labelColOf
    rw [hp, hh]
    simp [jsOrStr, hne]
  · intro raw _
    cases hl : labelColOf headers with
    | none => simp [enrichRow]
    | some c =>
      by_cases hv : lookupCell raw c = ""
      · simp [enrichRow, hv]
      · by_cases hu : lookupCell raw c = "(unknown)"
        · simp [enrichRow, hv, hu]
        · simp [enrichRow, hv, hu]

/-- C7 witness: for the single unrecognized non-empty header "Zed" the
label column falls back to "Zed", and a row whose "Zed" cell is empty gets
the sentinel label. -/
theorem c7_label_fallback_witness :
    labelColOf ["Zed"] = some "Zed" ∧
    (enrichRow (labelColOf ["Zed"]) (pickColumn ["Zed"] sessionsCandidates)
      (pickColumn ["Zed"] conversionsCandidates) [("Zed", "")]).label = "(unknown)" :=
  ⟨(c7_label_fallback ["Zed"] [[("Zed", "")]]).1 "Zed" (by decide) (by decide) (by decide),
   ((c7_label_fallback ["Zed"] [[("Zed", "")]]).2 [("Zed", "")]
       (List.mem_cons_self _ _)).mpr
     (Or.inr ⟨"Zed", by decide, Or.inl (by decide)⟩)⟩

/-- C8: the AI prompt sample never exceeds 50,000 characters, only the
first 200 data rows can contribute to it, and it is exactly the
truncation of the raw header line followed by the newline-separated data
lines whose cells are JSON-escaped and comma-joined (hence deterministic
in the table). -/
theorem c8_sample_bounded (headers : List String) (rows : List CsvRow) :
    (buildAiSample headers rows).toList.length ≤ 50000 ∧
    buildAiSample headers rows = buildAiSample headers (rows.take 200) ∧
    buildAiSample headers rows =
      strTake (joinSep "," headers ++ "\n" ++
        joinSep "\n" ((rows.take 200).map fun r =>
          joinSep "," (headers.map fun h => jsonStringify (lookupCell r h)))) 50000 := by
  refine ⟨?_, ?_, rfl⟩
  · have h1 : (buildAiSample headers rows).toList =
        ((joinSep "," headers ++ "\n" ++
          joinSep "\n" ((rows.take 200).map fun r =>
            joinSep "," (headers.map fun h => jsonStringify (lookupCell r h)))).toList.take
          50000) := rfl
    rw [h1, List.length_take]
    exact min_le_left _ _
  · simp [buildAiSample, List.take_take]

/-- Appending strings concatenates their character lists. -/
theorem toList_append (a b : String) : (a ++ b).toList = a.toList ++ b.toList :=
  String.data_append a b

/-- Every character of every joined element occurs in the join. -/
theorem mem_joinSep (sep : String) :
    ∀ (l : List String) (h : String), h ∈ l → ∀ c ∈ h.toList,
      c ∈ (joinSep sep l).toList := by
  intro l
  induction l with
  | nil => intro h hm; exact absurd hm (List.not_mem_nil h)
  | cons a t ih =>
    intro h hm c hc
    cases t with
    | nil =>
      rcases List.mem_singleton.mp hm with rfl
      exact hc
    | cons b t' =>
      rw [show joinSep sep (a :: b :: t') = a ++ sep ++ joinSep sep (b :: t') from rfl,
        toList_append, toList_append]
      rcases List.mem_cons.mp hm with rfl | hm'
      · exact List.mem_append.mpr (Or.inl (List.mem_append.mpr (Or.inl hc)))
      · exact List.mem_append.mpr (Or.inr (ih h hm' c hc))

/-- Conversely, every character of the join comes from the separator or
from one of the joined elements. -/
theorem mem_of_mem_joinSep (sep : String) :
    ∀ (l : List String) (c : Char), c ∈ (joinSep sep l).toList →
      c ∈ sep.toList ∨ ∃ h ∈ l, c ∈ h.toList := by
  intro l
  induction l with
  | nil => intro c hc; exact absurd hc (List.not_mem_nil c)
  | cons a t ih =>
    intro c hc
    cases t with
    | nil => exact Or.inr ⟨a, List.mem_cons_self a [], hc⟩
    | cons b t' =>
      rw [show joinSep sep (a :: b :: t') = a ++ sep ++ joinSep sep (b :: t') from rfl,
        toList_append, toList_append] at hc
      rcases List.mem_append.mp hc with h1 | h2
      · rcases List.mem_append.mp h1 with ha | hsep
        · exact Or.inr ⟨a, List.mem_cons_self a _, ha⟩
        · exact Or.inl hsep
      · rcases ih c h2 with hs | ⟨h, hm, hc'⟩
        · exact Or.inl hs
        · exact Or.inr ⟨h, List.mem_cons_of_mem a hm, hc'⟩

/-- C10 (amended): provided no header contains a raw newline and the
header line fits within the 50,000-character cap, the sample's first line
is exactly the raw comma-joined headers — data cells alone go through
JSON-string escaping — so every character of every header, commas and
double quotes included, appears verbatim in the first line. -/
theorem c10_header_line_unescaped (headers : List String) (rows : List CsvRow)
    (hnl : ∀ h ∈ headers, '\n' ∉ h.toList)
    (hlen : (joinSep "," headers).toList.length ≤ 50000) :
    firstLine (buildAiSample headers rows) = joinSep "," headers ∧
    (∀ h ∈ headers, ∀ c ∈ h.toList,
      c ∈ (firstLine (buildAiSample headers rows)).toList) := by
  have hnlj : '\n' ∉ (joinSep "," headers).toList := by
    intro hmem
    rcases mem_of_mem_joinSep "," headers '\n' hmem with hs | ⟨h, hm, hc⟩
    · simp at hs
    · exact hnl h hm hc
  have h1 : (buildAiSample headers rows).toList =
      (joinSep "," headers).toList ++
        (('\n' :: (joinSep "\n" ((rows.take 200).map fun r =>
          joinSep "," (headers.map fun h => jsonStringify (lookupCell r h)))).toList).take
            (50000 - (joinSep "," headers).toList.length)) := by
    show ((joinSep "," headers ++ "\n" ++ _).toList.take 50000) = _
    rw [toList_append, toList_append, List.append_assoc,
      List.take_append_eq_append_take, List.take_of_length_le hlen]
    rfl
  have h2 : ∀ (k : Nat) (L : List Char),
      (('\n' :: L).take k).takeWhile (fun c => decide (c ≠ '\n')) = [] := by
    intro k L
    cases k with
    | zero => rfl
    | succ k =>
      rw [List.take_succ_cons]
      simp [List.takeWhile_cons]
  have hall : ∀ a ∈ (joinSep "," headers).toList, decide (a ≠ '\n') = true :=
    fun a ha => decide_eq_true fun hEq => hnlj (hEq ▸ ha)
  have hfirst : firstLine (buildAiSample headers rows) = joinSep "," headers := by
    unfold firstLine
    rw [h1, List.takeWhile_append_of_pos hall, h2, List.append_nil]
    rfl
  exact ⟨hfirst, fun h hm c hc => hfirst ▸ mem_joinSep "," headers h hm c hc⟩

/-- C10 witness: with headers "a" and "b,c" the sample's first line is the
raw "a,b,c", and the comma of the header "b,c" appears in it verbatim. -/
theorem c10_header_line_unescaped_witness :
    firstLine (buildAiSample ["a", "b,c"] []) = joinSep "," ["a", "b,c"] ∧
    ',' ∈ (firstLine (buildAiSample ["a", "b,c"] [])).toList :=
  ⟨(c10_header_line_unescaped ["a", "b,c"] [] (by decide) (by decide)).1,
   (c10_header_line_unescaped ["a", "b,c"] [] (by decide) (by decide)).2 "b,c"
     (by decide) ',' (by decide)⟩

end LeadMagnet
